import Mathlib

/-!
# Verification of the magnolia-cms/doc-preview-site retrieval pipeline

Shallow embedding of the documentation search/chunking code:
* `src/native-search/src/indexer.js` — token estimation and the LLM chunk
  splitter (`estimateTokens`, `createLlmChunks`, `buildSingleChunk`,
  `buildChunkFromSections`, `buildChunkContent`, `buildChunkHeader`);
* the browser search client (`MagnoliaSearch`: `_tokenize`,
  `_buildInvertedIndex`, `load`, `search`, `_findCandidates`,
  `_scoreDocument`, `_fuzzyMatch`, `_levenshtein`);
* the AI context assembler (`MagnoliaAI.buildContext`).

Texts are modelled as `List Char`.  JavaScript `Number` values arising in
scores are modelled as exact rationals (`ℚ`); the float literals involved
(0.5, 1.1, 1.2, 1.3, 0.1 applied through `Math.ceil`, and the 0.4/0.6 fuzzy
threshold) behave identically to exact rational arithmetic on the integer
operand ranges the code produces, so this is a faithful model.
`Math.ceil(n * 0.1)` on a nonnegative integer `n` is the ceiling division
`(n + 9) / 10`, and `Math.ceil(n * 1.3)` is `(13 * n + 9) / 10`.
-/

/-- Shorthand for the character-list representation of a JS string. -/
abbrev Str := List Char

/-- The characters the JS regex `\s` matches in the ASCII range. -/
def isWs (c : Char) : Bool :=
  c = ' ' || c = '\t' || c = '\n' || c = '\r' || c = Char.ofNat 11 || c = Char.ofNat 12

/-- `String.prototype.trim`: drop whitespace from both ends. -/
def trimStr (s : Str) : Str :=
  ((s.dropWhile isWs).reverse.dropWhile isWs).reverse

/-- Split on runs of whitespace, returning the nonempty words.
Models `text.split(/\s+/).filter(w => w.length > 0)`. -/
def splitWsAux : Str → Str → List Str
  | [], acc => if acc.isEmpty then [] else [acc.reverse]
  | c :: t, acc =>
    if isWs c then
      if acc.isEmpty then splitWsAux t [] else acc.reverse :: splitWsAux t []
    else
      splitWsAux t (c :: acc)

def splitWs (s : Str) : List Str := splitWsAux s []

/-- `needle.isPrefixOf hay` as used below (decidable, Bool-valued). -/
def isPrefixB (needle hay : Str) : Bool :=
  match needle, hay with
  | [], _ => true
  | _ :: _, [] => false
  | a :: as, b :: bs => a = b && isPrefixB as bs

/-- `hay.includes(needle)`: substring containment. -/
def isSubstring (needle hay : Str) : Bool :=
  isPrefixB needle hay ||
    match hay with
    | [] => false
    | _ :: t => isSubstring needle t

/-- Number of non-overlapping occurrences of `needle` in `hay`, as counted by
`hay.match(new RegExp(needle, 'g'))` for a pattern with no regex
metacharacters.  Fuel-indexed so that the kernel can evaluate it; the fuel is
always instantiated with `hay.length`, which bounds the recursion depth. -/
def countOccurAux (needle : Str) : Nat → Str → Nat
  | 0, _ => 0
  | _ + 1, [] => 0
  | fuel + 1, hay@(_ :: t) =>
    if isPrefixB needle hay then
      1 + countOccurAux needle fuel (hay.drop needle.length)
    else
      countOccurAux needle fuel t

def countOccur (needle hay : Str) : Nat := countOccurAux needle hay.length hay

/-- The markdown special characters counted by `estimateTokens`:
the regex class in the source reads hash, asterisk, underscore, backtick,
square brackets and parentheses. -/
def isMarkdownChar (c : Char) : Bool :=
  c = '#' || c = '*' || c = '_' || c = Char.ofNat 96 ||
  c = '[' || c = ']' || c = '(' || c = ')'

/-- `indexer.js` `estimateTokens(text)`:
word count, plus `Math.ceil(markdownChars * 0.1)`, plus `50` per `[Code]`
marker, plus `20` per `[Table]` marker, the total then put through
`Math.ceil(tokens * 1.3)`.  Empty text short-circuits to 0. -/
def estimateTokens (text : Str) : Nat :=
  if text.isEmpty then 0
  else
    (13 * ((splitWs text).length + ((text.filter isMarkdownChar).length + 9) / 10 +
      countOccur "[Code]".data text * 50 + countOccur "[Table]".data text * 20) + 9) / 10

/-- Modelled from the spec wording of claim C8 (a refinement target, compared
against `estimateTokens`): word count plus 10% of the markdown-character
count plus 50 per `[Code]` and 20 per `[Table]`, the sum scaled by 1.3 and
rounded up once at the end; empty text yields 0. -/
def estimateTokensSpec (text : Str) : ℤ :=
  if text.isEmpty then 0
  else
    ⌈((13 : ℚ) / 10) *
      (((splitWs text).length : ℚ) + ((text.filter isMarkdownChar).length : ℚ) / 10 +
        50 * (countOccur "[Code]".data text : ℚ) + 20 * (countOccur "[Table]".data text : ℚ))⌉

/-- The amended formula for claim C8: identical to the spec formula except
that the 10% markdown term is rounded up before summation, as the code does. -/
def estimateTokensAmended (text : Str) : ℤ :=
  if text.isEmpty then 0
  else
    ⌈((13 : ℚ) / 10) *
      (((splitWs text).length : ℚ) + (⌈((text.filter isMarkdownChar).length : ℚ) / 10⌉ : ℚ) +
        50 * (countOccur "[Code]".data text : ℚ) + 20 * (countOccur "[Table]".data text : ℚ))⌉

/-- Ceiling of `a / 10` over ℚ agrees with the integer formula `(a + 9) / 10`. -/
theorem ceil_div_ten (a : ℕ) : ⌈(a : ℚ) / 10⌉ = ((a + 9) / 10 : ℕ) := by
  set n : ℕ := (a + 9) / 10 with hn
  have g1 : 10 * n < a + 10 := by omega
  have g2 : a ≤ 10 * n := by omega
  have g1q : (10 : ℚ) * n < (a : ℚ) + 10 := by exact_mod_cast g1
  have g2q : (a : ℚ) ≤ 10 * n := by exact_mod_cast g2
  rw [Int.ceil_eq_iff]
  constructor
  · rw [lt_div_iff (by norm_num : (0:ℚ) < 10)]
    push_cast
    linarith
  · rw [div_le_iff (by norm_num : (0:ℚ) < 10)]
    push_cast
    linarith

/-! ## Indexer: sections, page metadata, LLM chunks -/

/-- A finalized content section as passed to `createLlmChunks`
(`finalizeSection` output: the content list already joined to one string).
Empty strings model falsy (absent) fields. -/
structure Sec where
  heading : Str := []
  headingLevel : Nat := 0
  anchor : Str := []
  content : Str := []

/-- Per-page metadata handed to the chunker. -/
structure PageMetadata where
  title : Str := []
  category : Str := []
  version : Str := []
  breadcrumb : List Str := []
  description : Str := []

/-- `estimateSectionTokens(section)`. -/
def estimateSectionTokens (s : Sec) : Nat :=
  (if s.heading.isEmpty then 0 else estimateTokens s.heading) +
    (if s.content.isEmpty then 0 else estimateTokens s.content)

/-- Join a list of strings with a separator (`Array.prototype.join`). -/
def joinSep (sep : Str) (l : List Str) : Str := (List.intersperse sep l).join

/-- `buildChunkHeader(metadata, url)`. -/
def buildChunkHeader (md : PageMetadata) (url : Str) : Str :=
  joinSep ['\n']
    [ '#' :: ' ' :: md.title,
      [],
      "URL: ".data ++ url,
      "Category: ".data ++ md.category,
      "Version: ".data ++ md.version,
      if md.breadcrumb.isEmpty then [] else "Path: ".data ++ joinSep " > ".data md.breadcrumb,
      [],
      if md.description.isEmpty then [] else "Summary: ".data ++ md.description,
      [],
      "---".data,
      [] ]

/-- The lines contributed by one section in `buildChunkContent`. -/
def sectionLines (s : Sec) : List Str :=
  (if s.heading.isEmpty then []
   else [List.replicate (min (s.headingLevel + 1) 4) '#' ++ ' ' :: s.heading, []]) ++
    (if s.content.isEmpty then [] else [s.content, []])

/-- `buildChunkContent(header, sections)`. -/
def buildChunkContent (header : Str) (sections : List Sec) : Str :=
  trimStr (joinSep ['\n'] (header :: (sections.map sectionLines).join))

/-- An LLM chunk record.  `none` models an `undefined` field. -/
structure LlmChunk where
  id : Str := []
  url : Str := []
  title : Str := []
  category : Str := []
  version : Str := []
  content : Str := []
  tokenEstimate : Nat := 0
  chunkIndex : Option Nat := none
  chunkTotal : Option Nat := none
  sectionRange : Option Str := none
  sectionStartIndex : Option Nat := none
  sectionEndIndex : Option Nat := none

/-- Base chunk id: an md5 of the URL truncated to 12 hex chars in the source.
The hash value itself is irrelevant to every claim (it is an opaque
URL-derived tag), so it is modelled as the URL. -/
def baseId (url : Str) : Str := url

/-- `buildSingleChunk(header, sections, url, metadata, chunkIndex, chunkTotal)`. -/
def buildSingleChunk (header : Str) (sections : List Sec) (url : Str)
    (md : PageMetadata) (chunkIndex chunkTotal : Nat) : LlmChunk :=
  let content := buildChunkContent header sections
  { id := if chunkTotal = 1 then baseId url
          else baseId url ++ '-' :: (Nat.repr chunkIndex).data
    url := url
    title := md.title
    category := md.category
    version := md.version
    content := content
    tokenEstimate := estimateTokens content
    chunkIndex := if chunkTotal = 1 then none else some chunkIndex
    chunkTotal := if chunkTotal = 1 then none else some chunkTotal }

/-- `section.heading || alt`. -/
def headingOr (s : Sec) (alt : Str) : Str := if s.heading.isEmpty then alt else s.heading

/-- `buildChunkFromSections(header, sections, url, metadata, chunkIndex,
startSectionIndex, endSectionIndex)`. -/
def buildChunkFromSections (header : Str) (sections : List Sec) (url : Str)
    (md : PageMetadata) (chunkIndex startSectionIndex endSectionIndex : Nat) : LlmChunk :=
  let content := buildChunkContent header sections
  let sectionRange :=
    if sections.length = 1 then
      headingOr (sections.headD {}) "Introduction".data
    else
      headingOr (sections.headD {}) "Introduction".data ++ " ... ".data ++
        headingOr (sections.getLastD {}) "End".data
  { id := baseId url ++ '-' :: (Nat.repr chunkIndex).data
    url := url
    title := md.title
    category := md.category
    version := md.version
    content := content
    tokenEstimate := estimateTokens content
    chunkIndex := some chunkIndex
    chunkTotal := none
    sectionRange := some sectionRange
    sectionStartIndex := some startSectionIndex
    sectionEndIndex := some endSectionIndex }

/-- Target maximum tokens per chunk. -/
def MAX_CHUNK_TOKENS : Nat := 1500

/-- The mutable `currentChunk` accumulator of `createLlmChunks`. -/
structure CurChunk where
  sections : List Sec
  tokens : Nat
  startIndex : Nat

/-- The `for` loop of `createLlmChunks` over the sections, plus the final
"don't forget last chunk" step.  `rest` is the unprocessed suffix and `i`
the index of its first element in `allSections`. -/
def chunkLoop (header url : Str) (md : PageMetadata) (headerTokens : Nat)
    (allSections : List Sec) :
    List Sec → Nat → CurChunk → List LlmChunk → List LlmChunk
  | [], _, cur, acc =>
    if cur.sections.isEmpty then acc
    else
      acc ++ [buildChunkFromSections header cur.sections url md acc.length
        cur.startIndex (allSections.length - 1)]
  | s :: rest, i, cur, acc =>
    if cur.tokens + estimateSectionTokens s > MAX_CHUNK_TOKENS ∧ ¬cur.sections.isEmpty then
      chunkLoop header url md headerTokens allSections rest (i + 1)
        ⟨[s], headerTokens + estimateSectionTokens s, i⟩
        (acc ++ [buildChunkFromSections header cur.sections url md acc.length
          cur.startIndex (i - 1)])
    else
      chunkLoop header url md headerTokens allSections rest (i + 1)
        ⟨cur.sections ++ [s], cur.tokens + estimateSectionTokens s, cur.startIndex⟩ acc

/-- The `chunkTotal` backfill applied to every chunk after the split loop. -/
def setChunkTotal (k : Nat) (c : LlmChunk) : LlmChunk := { c with chunkTotal := some k }

/-- `createLlmChunks(metadata, sections, url)`. -/
def createLlmChunks (md : PageMetadata) (sections : List Sec) (url : Str) :
    List LlmChunk :=
  let header := buildChunkHeader md url
  let headerTokens := estimateTokens header
  let totalTokens := headerTokens + (sections.map estimateSectionTokens).sum
  if totalTokens ≤ MAX_CHUNK_TOKENS then
    [buildSingleChunk header sections url md 0 1]
  else
    let chunks := chunkLoop header url md headerTokens sections sections 0
      ⟨[], headerTokens, 0⟩ []
    chunks.map (setChunkTotal chunks.length)

/-- Header tokens plus all section tokens for a page: the quantity the
single-chunk short-circuit of `createLlmChunks` tests against the budget. -/
def pageTotalTokens (md : PageMetadata) (sections : List Sec) (url : Str) : Nat :=
  estimateTokens (buildChunkHeader md url) + (sections.map estimateSectionTokens).sum

/-! ## Claim C1: chunk coverage of the section sequence -/

/-- The contiguous slice of `len` sections starting at index `start`. -/
def secSlice (sections : List Sec) (start len : Nat) : List Sec :=
  (sections.drop start).take len

/-- The contents the chunks of a page would carry if the section list were cut
into consecutive slices of the given lengths. -/
def sliceContents (header : Str) (sections : List Sec) : List Nat → Nat → List Str
  | [], _ => []
  | len :: ls, start =>
    buildChunkContent header (secSlice sections start len) ::
      sliceContents header sections ls (start + len)

/-- Start indices of consecutive slices of the given lengths. -/
def rangeStarts : List Nat → Nat → List Nat
  | [], _ => []
  | len :: ls, start => start :: rangeStarts ls (start + len)

/-- End indices (inclusive) of consecutive slices of the given lengths. -/
def rangeEnds : List Nat → Nat → List Nat
  | [], _ => []
  | len :: ls, start => (start + len - 1) :: rangeEnds ls (start + len)

/-- The chunk list produced from consecutive slices of the given lengths,
numbering chunks from `ci`. -/
def chunksFromLens (header url : Str) (md : PageMetadata) (sections : List Sec) :
    List Nat → Nat → Nat → List LlmChunk
  | [], _, _ => []
  | len :: ls, start, ci =>
    buildChunkFromSections header (secSlice sections start len) url md ci start
        (start + len - 1) ::
      chunksFromLens header url md sections ls (start + len) (ci + 1)

theorem chunksFromLens_length (header url : Str) (md : PageMetadata)
    (sections : List Sec) :
    ∀ (lens : List Nat) (start ci : Nat),
      (chunksFromLens header url md sections lens start ci).length = lens.length := by
  intro lens
  induction lens with
  | nil => intro start ci; rfl
  | cons len ls ih => intro start ci; simp [chunksFromLens, ih]

theorem secSlice_snoc (sections : List Sec) (start i : Nat) (s : Sec) (rest : List Sec)
    (hle : start ≤ i) (hdrop : sections.drop i = s :: rest) :
    secSlice sections start (i - start) ++ [s] = secSlice sections start (i + 1 - start) := by
  have h1 : i + 1 - start = (i - start) + 1 := by omega
  rw [h1]
  unfold secSlice
  rw [List.take_add]
  congr 1
  have h2 : (sections.drop start).drop (i - start) = sections.drop i := by
    rw [List.drop_drop]
    congr 1
    omega
  rw [h2, hdrop]
  rfl

/-- Characterization of the `createLlmChunks` splitting loop: starting from a
current chunk holding exactly the sections `cur.startIndex ≤ · < i`, the loop
emits chunks cut at consecutive boundaries that cover the rest of the page. -/
theorem chunkLoop_spec (header url : Str) (md : PageMetadata) (headerTokens : Nat)
    (sections : List Sec) :
    ∀ (rest : List Sec) (i : Nat) (cur : CurChunk) (acc : List LlmChunk),
      rest = sections.drop i →
      i ≤ sections.length →
      cur.startIndex ≤ i →
      cur.sections = secSlice sections cur.startIndex (i - cur.startIndex) →
      (cur.sections = [] → cur.startIndex = i) →
      ∃ lens : List Nat,
        chunkLoop header url md headerTokens sections rest i cur acc =
          acc ++ chunksFromLens header url md sections lens cur.startIndex acc.length ∧
        lens.sum + cur.startIndex = sections.length ∧
        (∀ l ∈ lens, 1 ≤ l) := by
  intro rest
  induction rest with
  | nil =>
    intro i cur acc hrest hin hsle hcur hemp
    have hn : sections.length ≤ i := by
      by_contra hlt
      push_neg at hlt
      have : sections.drop i ≠ [] := by
        intro h
        have := List.drop_eq_nil_iff_le.mp h
        omega
      exact this hrest.symm
    have hi : i = sections.length := by omega
    by_cases hc : cur.sections.isEmpty
    · have hnil : cur.sections = [] := by
        cases h : cur.sections with
        | nil => rfl
        | cons a t => rw [h] at hc; simp at hc
      refine ⟨[], ?_, ?_, by simp⟩
      · simp [chunkLoop, hc, chunksFromLens]
      · have := hemp hnil
        simp
        omega
    · have hnil : cur.sections ≠ [] := by
        intro h
        rw [h] at hc
        simp at hc
      have hslt : cur.startIndex < i := by
        rcases Nat.lt_or_ge cur.startIndex i with h | h
        · exact h
        · have : cur.startIndex = i := by omega
          rw [this] at hcur
          simp [secSlice] at hcur
          exact absurd hcur hnil
      refine ⟨[sections.length - cur.startIndex], ?_, by simp; omega, ?_⟩
      · simp only [chunkLoop, hc, Bool.false_eq_true, if_false, chunksFromLens]
        have h2 : cur.startIndex + (sections.length - cur.startIndex) - 1 =
            sections.length - 1 := by omega
        rw [h2, hcur, hi]
      · intro l hl
        simp at hl
        omega
  | cons s rest ih =>
    intro i cur acc hrest hin hsle hcur hemp
    have hdrop : sections.drop i = s :: rest := hrest.symm
    have hilt : i < sections.length := by
      by_contra h
      push_neg at h
      rw [List.drop_eq_nil_of_le h] at hdrop
      exact List.noConfusion hdrop
    have hrest' : rest = sections.drop (i + 1) := by
      have h := List.drop_drop 1 i sections
      rw [hdrop] at h
      simpa using h
    have hs1 : secSlice sections i 1 = [s] := by
      simp [secSlice, hdrop]
    by_cases hcond : cur.tokens + estimateSectionTokens s > MAX_CHUNK_TOKENS ∧
        ¬cur.sections.isEmpty
    · have hnil : cur.sections ≠ [] := by
        intro h
        apply hcond.2
        rw [h]
        rfl
      have hslt : cur.startIndex < i := by
        rcases Nat.lt_or_ge cur.startIndex i with h | h
        · exact h
        · have : cur.startIndex = i := by omega
          rw [this] at hcur
          simp [secSlice] at hcur
          exact absurd hcur hnil
      obtain ⟨lens, heq, hsum, hpos⟩ := ih (i + 1)
        ⟨[s], headerTokens + estimateSectionTokens s, i⟩
        (acc ++ [buildChunkFromSections header cur.sections url md acc.length
          cur.startIndex (i - 1)])
        hrest' (by omega) (Nat.le_succ i)
        (by simpa using hs1.symm)
        (by intro h; exact List.noConfusion h)
      refine ⟨(i - cur.startIndex) :: lens, ?_, by simp at hsum ⊢; omega, ?_⟩
      · simp only [chunkLoop]
        rw [if_pos hcond, heq]
        simp only [chunksFromLens, List.length_append, List.length_singleton,
          List.append_assoc, List.singleton_append]
        have h1 : cur.startIndex + (i - cur.startIndex) = i := by omega
        rw [h1, ← hcur]
      · intro l hl
        rcases List.mem_cons.mp hl with h | h
        · omega
        · exact hpos l h
    · obtain ⟨lens, heq, hsum, hpos⟩ := ih (i + 1)
        ⟨cur.sections ++ [s], cur.tokens + estimateSectionTokens s, cur.startIndex⟩
        acc hrest' (by omega) (le_trans hsle (Nat.le_succ i))
        (by
          simp only
          rw [hcur]
          exact secSlice_snoc sections cur.startIndex i s rest hsle hdrop)
        (by intro h; simp at h)
      refine ⟨lens, ?_, by simpa using hsum, hpos⟩
      simp only [chunkLoop]
      rw [if_neg hcond]
      exact heq

theorem chunksFromLens_map_content (header url : Str) (md : PageMetadata)
    (sections : List Sec) :
    ∀ (lens : List Nat) (start ci : Nat),
      (chunksFromLens header url md sections lens start ci).map LlmChunk.content =
        sliceContents header sections lens start := by
  intro lens
  induction lens with
  | nil => intro start ci; rfl
  | cons len ls ih =>
    intro start ci
    simp only [chunksFromLens, List.map_cons, sliceContents, ih]
    rfl

theorem chunksFromLens_map_chunkIndex (header url : Str) (md : PageMetadata)
    (sections : List Sec) :
    ∀ (lens : List Nat) (start ci : Nat),
      (chunksFromLens header url md sections lens start ci).map LlmChunk.chunkIndex =
        (List.range' ci lens.length).map some := by
  intro lens
  induction lens with
  | nil => intro start ci; rfl
  | cons len ls ih =>
    intro start ci
    simp only [chunksFromLens, List.map_cons, List.length_cons, List.range'_succ,
      ih]
    rfl

theorem chunksFromLens_map_startIndex (header url : Str) (md : PageMetadata)
    (sections : List Sec) :
    ∀ (lens : List Nat) (start ci : Nat),
      (chunksFromLens header url md sections lens start ci).map
          LlmChunk.sectionStartIndex =
        (rangeStarts lens start).map some := by
  intro lens
  induction lens with
  | nil => intro start ci; rfl
  | cons len ls ih =>
    intro start ci
    simp only [chunksFromLens, List.map_cons, rangeStarts, ih]
    rfl

theorem chunksFromLens_map_endIndex (header url : Str) (md : PageMetadata)
    (sections : List Sec) :
    ∀ (lens : List Nat) (start ci : Nat),
      (chunksFromLens header url md sections lens start ci).map
          LlmChunk.sectionEndIndex =
        (rangeEnds lens start).map some := by
  intro lens
  induction lens with
  | nil => intro start ci; rfl
  | cons len ls ih =>
    intro start ci
    simp only [chunksFromLens, List.map_cons, rangeEnds, ih]
    rfl

/-- C1 (chunk coverage): for every page, the chunks produced by
`createLlmChunks`, taken in `chunkIndex` order (which is list order), cover
the page's section sequence by consecutive slices: there is a list of slice
lengths summing to the number of sections such that the j-th chunk's content
is built from the j-th slice, and — whenever the page was split into at
least two chunks — the `sectionStartIndex`/`sectionEndIndex` fields are
exactly the consecutive closed ranges of those slices (no gaps, overlaps or
duplicates) and `chunkIndex` runs 0,1,2,… in order. -/
theorem createLlmChunks_partition (md : PageMetadata) (sections : List Sec) (url : Str) :
    ∃ lens : List Nat,
      lens.length = (createLlmChunks md sections url).length ∧
      lens.sum = sections.length ∧
      (createLlmChunks md sections url).map LlmChunk.content =
        sliceContents (buildChunkHeader md url) sections lens 0 ∧
      (2 ≤ (createLlmChunks md sections url).length →
        (createLlmChunks md sections url).map LlmChunk.chunkIndex =
          (List.range (createLlmChunks md sections url).length).map some ∧
        (createLlmChunks md sections url).map LlmChunk.sectionStartIndex =
          (rangeStarts lens 0).map some ∧
        (createLlmChunks md sections url).map LlmChunk.sectionEndIndex =
          (rangeEnds lens 0).map some ∧
        (∀ l ∈ lens, 1 ≤ l)) := by
  by_cases hb : estimateTokens (buildChunkHeader md url) +
      (sections.map estimateSectionTokens).sum ≤ MAX_CHUNK_TOKENS
  · have hch : createLlmChunks md sections url =
        [buildSingleChunk (buildChunkHeader md url) sections url md 0 1] := by
      unfold createLlmChunks
      rw [if_pos hb]
    refine ⟨[sections.length], ?_, by simp, ?_, ?_⟩
    · rw [hch]
      rfl
    · rw [hch]
      simp only [List.map_cons, List.map_nil, sliceContents, secSlice, List.drop_zero,
        List.take_length]
      rfl
    · intro h2
      rw [hch] at h2
      simp at h2
  · obtain ⟨lens, heq, hsum, hpos⟩ := chunkLoop_spec (buildChunkHeader md url) url md
      (estimateTokens (buildChunkHeader md url)) sections sections 0
      ⟨[], estimateTokens (buildChunkHeader md url), 0⟩ []
      rfl (Nat.zero_le _) (Nat.le_refl 0) rfl (fun _ => rfl)
    simp only [List.nil_append, List.length_nil] at heq
    have hch : createLlmChunks md sections url =
        (chunksFromLens (buildChunkHeader md url) url md sections lens 0 0).map
          (setChunkTotal
            (chunksFromLens (buildChunkHeader md url) url md sections lens 0 0).length) := by
      unfold createLlmChunks
      rw [if_neg hb]
      simp only
      rw [heq]
    have hcomp : ∀ f : LlmChunk → Option Nat,
        (∀ k c, f (setChunkTotal k c) = f c) →
        ∀ k, (chunksFromLens (buildChunkHeader md url) url md sections lens 0 0).map
            (f ∘ setChunkTotal k) =
          (chunksFromLens (buildChunkHeader md url) url md sections lens 0 0).map f := by
      intro f hf k
      apply List.map_congr_left
      intro c _
      exact hf k c
    simp only at hsum
    have hlen : (createLlmChunks md sections url).length = lens.length := by
      rw [hch, List.length_map, chunksFromLens_length]
    refine ⟨lens, hlen.symm, by omega, ?_, fun _ => ⟨?_, ?_, ?_, hpos⟩⟩
    · rw [hch, List.map_map]
      have h := List.map_congr_left (l := chunksFromLens (buildChunkHeader md url) url md
        sections lens 0 0)
        (f := LlmChunk.content ∘ setChunkTotal
          (chunksFromLens (buildChunkHeader md url) url md sections lens 0 0).length)
        (g := LlmChunk.content) (fun c _ => rfl)
      rw [h, chunksFromLens_map_content]
    · rw [hch, List.map_map, hcomp LlmChunk.chunkIndex (fun _ _ => rfl),
        chunksFromLens_map_chunkIndex, List.length_map, chunksFromLens_length,
        List.range_eq_range']
    · rw [hch, List.map_map, hcomp LlmChunk.sectionStartIndex (fun _ _ => rfl),
        chunksFromLens_map_startIndex]
    · rw [hch, List.map_map, hcomp LlmChunk.sectionEndIndex (fun _ _ => rfl),
        chunksFromLens_map_endIndex]

/-- Concrete page used to instantiate the C1 coverage theorem. -/
def pageMdW : PageMetadata := {}

def pageSecsW : List Sec := [{ content := "hello world".data }]

def pageUrlW : Str := "u".data

/-- Witness for C1: the coverage statement instantiated at a concrete page. -/
theorem createLlmChunks_partition_witness :
    ∃ lens : List Nat,
      lens.length = (createLlmChunks pageMdW pageSecsW pageUrlW).length ∧
      lens.sum = pageSecsW.length ∧
      (createLlmChunks pageMdW pageSecsW pageUrlW).map LlmChunk.content =
        sliceContents (buildChunkHeader pageMdW pageUrlW) pageSecsW lens 0 ∧
      (2 ≤ (createLlmChunks pageMdW pageSecsW pageUrlW).length →
        (createLlmChunks pageMdW pageSecsW pageUrlW).map LlmChunk.chunkIndex =
          (List.range (createLlmChunks pageMdW pageSecsW pageUrlW).length).map some ∧
        (createLlmChunks pageMdW pageSecsW pageUrlW).map LlmChunk.sectionStartIndex =
          (rangeStarts lens 0).map some ∧
        (createLlmChunks pageMdW pageSecsW pageUrlW).map LlmChunk.sectionEndIndex =
          (rangeEnds lens 0).map some ∧
        (∀ l ∈ lens, 1 ≤ l)) :=
  createLlmChunks_partition pageMdW pageSecsW pageUrlW

/-! ## Claim C2: when the chunkIndex/chunkTotal fields are populated -/

theorem chunksFromLens_chunkIndex_isSome (header url : Str) (md : PageMetadata)
    (sections : List Sec) :
    ∀ (lens : List Nat) (start ci : Nat),
      ∀ c ∈ chunksFromLens header url md sections lens start ci,
        ∃ j, c.chunkIndex = some j := by
  intro lens
  induction lens with
  | nil => intro start ci c hc; exact absurd hc (List.not_mem_nil c)
  | cons len ls ih =>
    intro start ci c hc
    rcases List.mem_cons.mp hc with h | h
    · exact ⟨ci, by rw [h]; rfl⟩
    · exact ih (start + len) (ci + 1) c h

/-- C2 as amended: a page whose total estimated tokens (header plus all
sections) is at most 1500 yields exactly one chunk carrying no
`chunkIndex`/`chunkTotal`; conversely, whenever the total exceeds 1500 the
page takes the multi-chunk path and every produced chunk carries both fields
(with `chunkTotal` equal to the number of chunks) — even when that path
produces a single oversized chunk, in which case `chunkIndex = 0` and
`chunkTotal = 1` are populated. -/
theorem createLlmChunks_chunkFields (md : PageMetadata) (sections : List Sec) (url : Str) :
    (pageTotalTokens md sections url ≤ MAX_CHUNK_TOKENS →
      createLlmChunks md sections url =
        [buildSingleChunk (buildChunkHeader md url) sections url md 0 1] ∧
      (buildSingleChunk (buildChunkHeader md url) sections url md 0 1).chunkIndex = none ∧
      (buildSingleChunk (buildChunkHeader md url) sections url md 0 1).chunkTotal = none) ∧
    (MAX_CHUNK_TOKENS < pageTotalTokens md sections url →
      ∀ c ∈ createLlmChunks md sections url,
        (∃ j, c.chunkIndex = some j) ∧
        c.chunkTotal = some (createLlmChunks md sections url).length) := by
  constructor
  · intro hle
    have hle' : estimateTokens (buildChunkHeader md url) +
        (sections.map estimateSectionTokens).sum ≤ MAX_CHUNK_TOKENS := hle
    refine ⟨?_, rfl, rfl⟩
    unfold createLlmChunks
    rw [if_pos hle']
  · intro hgt
    have hne : ¬(estimateTokens (buildChunkHeader md url) +
        (sections.map estimateSectionTokens).sum ≤ MAX_CHUNK_TOKENS) := by
      unfold pageTotalTokens at hgt
      omega
    obtain ⟨lens, heq, hsum, hpos⟩ := chunkLoop_spec (buildChunkHeader md url) url md
      (estimateTokens (buildChunkHeader md url)) sections sections 0
      ⟨[], estimateTokens (buildChunkHeader md url), 0⟩ []
      rfl (Nat.zero_le _) (Nat.le_refl 0) rfl (fun _ => rfl)
    simp only [List.nil_append, List.length_nil] at heq
    have hch : createLlmChunks md sections url =
        (chunksFromLens (buildChunkHeader md url) url md sections lens 0 0).map
          (setChunkTotal
            (chunksFromLens (buildChunkHeader md url) url md sections lens 0 0).length) := by
      unfold createLlmChunks
      rw [if_neg hne]
      simp only
      rw [heq]
    intro c hc
    rw [hch] at hc
    obtain ⟨c', hc', hcc⟩ := List.mem_map.mp hc
    obtain ⟨j, hj⟩ := chunksFromLens_chunkIndex_isSome (buildChunkHeader md url) url md
      sections lens 0 0 c' hc'
    constructor
    · exact ⟨j, by rw [← hcc, setChunkTotal, hj]⟩
    · rw [← hcc, hch, List.length_map]
      rfl

/-- An oversized single section: thirty `[Code]` markers estimate to far more
than the 1500-token budget. -/
def secX : Sec := { content := (List.replicate 30 "[Code]".data).join }

def mdX : PageMetadata := { title := "T".data, category := "c".data, version := "v".data }

set_option maxRecDepth 100000 in
/-- Counterexample to C2 as stated: this page exceeds the token budget with a
single oversized section, so it takes the multi-chunk path and produces
exactly ONE chunk that nevertheless carries `chunkIndex = 0` and
`chunkTotal = 1` — refuting "the fields are present only when the page was
split into 2 or more chunks". -/
theorem createLlmChunks_oversized_single_counterexample :
    MAX_CHUNK_TOKENS < pageTotalTokens mdX [secX] "u".data ∧
    (createLlmChunks mdX [secX] "u".data).length = 1 ∧
    (createLlmChunks mdX [secX] "u".data).map LlmChunk.chunkIndex = [some 0] ∧
    (createLlmChunks mdX [secX] "u".data).map LlmChunk.chunkTotal = [some 1] := by
  refine ⟨by decide, by decide, by decide, by decide⟩

/-- Witness for the amended C2 theorem: a small page under the budget yields
the single chunk with both fields absent. -/
theorem createLlmChunks_chunkFields_witness :
    createLlmChunks pageMdW pageSecsW pageUrlW =
      [buildSingleChunk (buildChunkHeader pageMdW pageUrlW) pageSecsW pageUrlW pageMdW 0 1] ∧
    (buildSingleChunk (buildChunkHeader pageMdW pageUrlW) pageSecsW pageUrlW
      pageMdW 0 1).chunkIndex = none ∧
    (buildSingleChunk (buildChunkHeader pageMdW pageUrlW) pageSecsW pageUrlW
      pageMdW 0 1).chunkTotal = none :=
  (createLlmChunks_chunkFields pageMdW pageSecsW pageUrlW).1 (by decide)

/-! ## Claim C8: the token-estimation formula -/

/-- Counterexample to C8 as stated: on the text `(((((` the code rounds the
10% markdown term up on its own (`Math.ceil(5 * 0.1) = 1`) before scaling,
producing 3, while the claim's formula (exact 10%, one final round-up) gives
`ceil(1.3 * 1.5) = 2`. -/
theorem estimateTokens_formula_counterexample :
    estimateTokens "(((((".data = 3 ∧ estimateTokensSpec "(((((".data = 2 := by
  constructor
  · decide
  · have h1 : (splitWs "(((((".data).length = 1 := by decide
    have h2 : (("(((((".data).filter isMarkdownChar).length = 5 := by decide
    have h3 : countOccur "[Code]".data "(((((".data = 0 := by decide
    have h4 : countOccur "[Table]".data "(((((".data = 0 := by decide
    have h5 : ¬(("(((((".data).isEmpty = true) := by decide
    rw [estimateTokensSpec, if_neg h5, h1, h2, h3, h4]
    norm_num [Int.ceil_eq_iff]

/-- C8 as amended: `estimateTokens` equals the claimed formula with the 10%
markdown-character term rounded up before summation — word count, plus
`⌈0.1 · markdownChars⌉`, plus 50 per `[Code]` marker, plus 20 per `[Table]`
marker, the sum scaled by 1.3 and rounded up; empty text yields 0. -/
theorem estimateTokens_eq_amended (text : Str) :
    (estimateTokens text : ℤ) = estimateTokensAmended text := by
  by_cases h : text.isEmpty = true
  · rw [estimateTokens, estimateTokensAmended, if_pos h, if_pos h]
    rfl
  · rw [estimateTokens, estimateTokensAmended, if_neg h, if_neg h,
      ceil_div_ten ((text.filter isMarkdownChar).length), Int.cast_natCast]
    have hq : ((13:ℚ)/10) * (((splitWs text).length : ℚ) +
        ((((text.filter isMarkdownChar).length + 9) / 10 : ℕ) : ℚ) +
        50 * (countOccur "[Code]".data text : ℚ) +
        20 * (countOccur "[Table]".data text : ℚ)) =
        ((13 * ((splitWs text).length + ((text.filter isMarkdownChar).length + 9) / 10 +
          countOccur "[Code]".data text * 50 +
          countOccur "[Table]".data text * 20) : ℕ) : ℚ) / 10 := by
      push_cast
      ring
    rw [hq, ceil_div_ten]

/-! ## Browser search client (`MagnoliaSearch`) -/

/-- ASCII lowering, modelling `String.prototype.toLowerCase` on the
character range the pipeline produces. -/
def asciiToLower (c : Char) : Char :=
  if 'A' ≤ c ∧ c ≤ 'Z' then Char.ofNat (c.toNat + 32) else c

def lowerStr (s : Str) : Str := s.map asciiToLower

def isLowerAlnum (c : Char) : Bool :=
  ('a' ≤ c && c ≤ 'z') || ('0' ≤ c && c ≤ '9')

/-- `_tokenize(text)`: lowercase, replace every character outside
`[a-z0-9\s]` with a space, split on whitespace, keep words of length ≥ 2. -/
def tokenize (text : Str) : List Str :=
  (splitWs ((lowerStr text).map fun c => if isLowerAlnum c || isWs c then c else ' ')).filter
    fun w => 2 ≤ w.length

/-- One row-update step of the `_levenshtein` dynamic-programming matrix:
walks the characters of `a`, carrying the diagonal and left cells. -/
def levRowAux : List Char → Char → List Nat → Nat → Nat → List Nat
  | [], _, _, _, _ => []
  | a :: as, bc, prev, diag, left =>
    match prev with
    | [] => []
    | up :: prevRest =>
      (if a = bc then diag else 1 + min diag (min left up)) ::
        levRowAux as bc prevRest up
          (if a = bc then diag else 1 + min diag (min left up))

/-- Fold the DP rows over the characters of `b` (`i` is the 0-based count of
rows already produced; row `i+1` starts with the cell `matrix[i+1][0] = i+1`). -/
def levRows (a : List Char) : List Char → List Nat → Nat → List Nat
  | [], prev, _ => prev
  | bc :: bs, prev, i =>
    levRows a bs ((i + 1) :: levRowAux a bc (prev.drop 1) (prev.headD 0) (i + 1)) (i + 1)

/-- `_levenshtein(a, b)`: classic edit distance; the value is the last cell
of the last DP row. -/
def levDistance (a b : List Char) : Nat :=
  (levRows a b (List.range (a.length + 1)) 0).getLastD 0

/-- `config.fuzzyThreshold = 0.4`. -/
def fuzzyThreshold : ℚ := 2 / 5

/-- `_fuzzyMatch(a, b)`: reject when lengths differ by more than 2, else
compare `1 - distance/maxLength` against `1 - fuzzyThreshold`.  When both
strings are empty JavaScript computes `NaN >= 0.6`, which is false; the
`maxLength = 0` branch models that. -/
def fuzzyMatch (a b : Str) : Bool :=
  if max a.length b.length - min a.length b.length > 2 then false
  else if max a.length b.length = 0 then false
  else
    decide ((1 : ℚ) - (levDistance a b : ℚ) / (max a.length b.length : ℚ) ≥ 1 - fuzzyThreshold)

/-- A search record as loaded from the search-index JSON.  Empty strings and
0 model absent (falsy) fields. -/
structure Doc where
  title : Str := []
  heading : Str := []
  content : Str := []
  fullContent : Str := []
  breadcrumb : List Str := []
  headingLevel : Nat := 0
  category : Str := []
  version : Str := []
  searchText : Str := []

/-- The words `_buildInvertedIndex` skips to avoid prototype collisions. -/
def isReservedWord (w : Str) : Bool :=
  w = "constructor".data || w = "__proto__".data || w = "prototype".data

/-- Add one posting to the inverted index (`invertedIndex[word].push(docIndex)`
with the duplicate check). -/
def iiAdd (ii : List (Str × List Nat)) (w : Str) (di : Nat) : List (Str × List Nat) :=
  if (ii.find? fun p => p.1 = w).isSome then
    ii.map fun p => if p.1 = w then (p.1, if di ∈ p.2 then p.2 else p.2 ++ [di]) else p
  else
    ii ++ [(w, [di])]

/-- `_buildInvertedIndex()`: token → postings over every record's
`_searchText`, in document then token order. -/
def buildInvertedIndex (docs : List Doc) : List (Str × List Nat) :=
  docs.enum.foldl
    (fun ii p =>
      (tokenize p.2.searchText).foldl
        (fun ii w => if isReservedWord w then ii else iiAdd ii w p.1) ii)
    []

/-- Engine state: `this.loaded`, `this.index`, `this.invertedIndex`. -/
structure EngineState where
  loaded : Bool := false
  index : List Doc := []
  invertedIndex : List (Str × List Nat) := []

/-- Outcome of the `fetch` + `response.json()` pair in `load`. -/
inductive FetchResult where
  | netFail : FetchResult
  | badJson : FetchResult
  | ok : List Doc → FetchResult

/-- `load()`: returns immediately when already loaded; on fetch/parse failure
throws, leaving the state untouched; on success stores the records, builds
the inverted index and becomes ready. -/
def load (s : EngineState) (f : FetchResult) : EngineState × Except Str Unit :=
  if s.loaded then (s, Except.ok ())
  else
    match f with
    | FetchResult.netFail => (s, Except.error "Failed to load search index".data)
    | FetchResult.badJson => (s, Except.error "invalid JSON body".data)
    | FetchResult.ok docs =>
      ({ loaded := true, index := docs, invertedIndex := buildInvertedIndex docs },
        Except.ok ())

/-- `candidates.add(idx)` on a JS `Set`, preserving insertion order. -/
def addCandidate (cands : List Nat) (x : Nat) : List Nat :=
  if x ∈ cands then cands else cands ++ [x]

def addCandidates (cands : List Nat) (xs : List Nat) : List Nat :=
  xs.foldl addCandidate cands

/-- The exact- and prefix-match phases of `_findCandidates` for one query
term (every phase of the source except the fuzzy one). -/
def termCandidatesExactPrefix (ii : List (Str × List Nat)) (cands : List Nat)
    (term : Str) : List Nat :=
  let c1 := match ii.find? fun p => p.1 = term with
    | some p => addCandidates cands p.2
    | none => cands
  ii.foldl
    (fun c p => if isPrefixB term p.1 || isPrefixB p.1 term then addCandidates c p.2 else c)
    c1

/-- All three candidate-expansion phases of `_findCandidates` for one query
term: exact, prefix (both directions), and — only for terms of length ≥ 4 —
fuzzy. -/
def termCandidates (ii : List (Str × List Nat)) (cands : List Nat) (term : Str) :
    List Nat :=
  let c2 := termCandidatesExactPrefix ii cands term
  if 4 ≤ term.length then
    ii.foldl (fun c p => if fuzzyMatch term p.1 then addCandidates c p.2 else c) c2
  else c2

/-- `_findCandidates(queryTerms)`. -/
def findCandidates (ii : List (Str × List Nat)) (terms : List Str) : List Nat :=
  terms.foldl (termCandidates ii) []

/-- Per-term contributions of `_scoreDocument` (title weight 10 with a +15
starts-with bonus, heading weight 8, content weight 3 plus an occurrence
bonus capped at 5, breadcrumb weight 2).  All field texts arrive lowercased. -/
def termScore (title heading content breadcrumb : Str) (term : Str) : ℚ :=
  (if isSubstring term title then
      (10 : ℚ) + (if isPrefixB term title then 15 else 0)
    else 0) +
  (if ¬heading.isEmpty ∧ isSubstring term heading then (8 : ℚ) else 0) +
  (if isSubstring term content then
      (3 : ℚ) + min ((countOccur term content : ℚ) * (1 / 2)) 5
    else 0) +
  (if isSubstring term breadcrumb then (2 : ℚ) else 0)

/-- The additive part of `_scoreDocument`: full-query phrase bonuses plus the
per-term contributions, accumulated in source order. -/
def scoreBase (title heading content breadcrumb : Str) (queryTerms : List Str)
    (fullQuery : Str) : ℚ :=
  queryTerms.foldl (fun s term => s + termScore title heading content breadcrumb term)
    ((if isSubstring fullQuery title then (100 : ℚ) else 0) +
      (if isSubstring fullQuery heading then (80 : ℚ) else 0))

/-- The multiplicative boosts applied once at the end of `_scoreDocument`:
×1.2 for titles shorter than 30 characters, ×1.1 for heading level 1 or 2
(`doc.headingLevel && doc.headingLevel <= 2`, with 0 modelling a falsy
heading level). -/
def applyBoosts (doc : Doc) (score : ℚ) : ℚ :=
  if doc.headingLevel ≠ 0 ∧ doc.headingLevel ≤ 2 then
    (if doc.title.length < 30 then score * (6 / 5) else score) * (11 / 10)
  else
    (if doc.title.length < 30 then score * (6 / 5) else score)

/-- `_scoreDocument(doc, queryTerms, fullQuery)`. -/
def scoreDocument (doc : Doc) (queryTerms : List Str) (fullQuery : Str) : ℚ :=
  applyBoosts doc
    (scoreBase (lowerStr doc.title) (lowerStr doc.heading)
      (lowerStr (if doc.fullContent.isEmpty then doc.content else doc.fullContent))
      (lowerStr (joinSep [' '] doc.breadcrumb))
      queryTerms fullQuery)

/-- A returned search record: the original document fields plus the injected
`_score`. -/
structure SearchResult where
  doc : Doc
  score : ℚ

/-- Options accepted by `search`; `none` models an absent property. -/
structure SearchOptions where
  version : Option Str := none
  category : Option Str := none
  maxResults : Option Nat := none

/-- `options.version || null`: the empty string is falsy, so it disables the
filter exactly like an absent one. -/
def normFilter : Option Str → Option Str
  | some [] => none
  | o => o

/-- `options.maxResults || this.config.maxResults` (default 20; 0 is falsy). -/
def normMaxResults : Option Nat → Nat
  | none => 20
  | some 0 => 20
  | some (n + 1) => n + 1

/-- `filters.version && doc.version !== filters.version` (and likewise for
category): `true` means the candidate is dropped. -/
def filterRejects (flt : Option Str) (val : Str) : Bool :=
  match flt with
  | some v => val ≠ v
  | none => false

/-- Stable insertion into a list sorted by strictly descending score:
models the comparator `(a, b) => b.score - a.score` under a stable sort. -/
def insertDesc (x : SearchResult) : List SearchResult → List SearchResult
  | [] => [x]
  | y :: ys => if y.score < x.score then x :: y :: ys else y :: insertDesc x ys

def sortByScoreDesc (l : List SearchResult) : List SearchResult :=
  l.foldr insertDesc []

/-- `search(query, options)`: guard clauses (not loaded / too-short query /
no usable tokens) return an empty list; candidates are filtered, scored,
sorted by descending score and truncated to `maxResults`. -/
def search (eng : EngineState) (query : Str) (opts : SearchOptions) :
    List SearchResult :=
  if eng.loaded = false then []
  else
    -- config.minQueryLength = 2
    if (lowerStr (trimStr query)).length < 2 then []
    else
      if (tokenize (lowerStr (trimStr query))).isEmpty then []
      else
        (sortByScoreDesc
          ((findCandidates eng.invertedIndex (tokenize (lowerStr (trimStr query)))).filterMap
            fun di =>
              match eng.index.get? di with
              | none => none
              | some doc =>
                if filterRejects (normFilter opts.version) doc.version then none
                else if filterRejects (normFilter opts.category) doc.category then none
                else some (SearchResult.mk doc
                  (scoreDocument doc (tokenize (lowerStr (trimStr query)))
                    (lowerStr (trimStr query)))))).take
          (normMaxResults opts.maxResults)

/-! ## Claim C3: fuzzy-match gating and predicate -/

/-- C3: (1) a query token shorter than 4 characters is never fuzzy-compared —
candidate expansion for it is exactly the exact+prefix phases; (2) for query
tokens of length ≥ 4, an indexed term fuzzy-matches iff the lengths differ by
at most 2 and the normalized Levenshtein distance is at most 0.4; (3) the
query token `javaa` fuzzy-matches the indexed term `java` (distance 1,
maxLength 5). -/
theorem fuzzy_match_spec :
    (∀ (ii : List (Str × List Nat)) (cands : List Nat) (term : Str),
      term.length < 4 →
      termCandidates ii cands term = termCandidatesExactPrefix ii cands term) ∧
    (∀ q w : Str, 4 ≤ q.length →
      (fuzzyMatch q w = true ↔
        max q.length w.length - min q.length w.length ≤ 2 ∧
          (levDistance q w : ℚ) / (max q.length w.length : ℚ) ≤ 2 / 5)) ∧
    fuzzyMatch "javaa".data "java".data = true ∧
    levDistance "javaa".data "java".data = 1 := by
  refine ⟨?_, ?_, ?_, by decide⟩
  · intro ii cands term h
    unfold termCandidates
    rw [if_neg (by omega)]
  · intro q w h4
    unfold fuzzyMatch
    by_cases hd : max q.length w.length - min q.length w.length > 2
    · rw [if_pos hd]
      constructor
      · intro h
        exact absurd h (by simp)
      · intro h
        exact absurd h.1 (by omega)
    · rw [if_neg hd]
      have hq : q.length ≤ max q.length w.length := le_max_left _ _
      rw [if_neg (by omega)]
      rw [decide_eq_true_eq]
      unfold fuzzyThreshold
      constructor
      · intro h
        exact ⟨by omega, by linarith⟩
      · intro h
        linarith [h.2]
  · unfold fuzzyMatch
    rw [if_neg (by decide), if_neg (by decide),
      show levDistance "javaa".data "java".data = 1 from by decide,
      show ("javaa".data).length = 5 from by decide,
      show ("java".data).length = 4 from by decide,
      decide_eq_true_eq]
    unfold fuzzyThreshold
    norm_num [max_def]

/-- Witness for C3: the short-token part at a concrete index and term, and
the predicate characterization at `javaa`/`java`. -/
theorem fuzzy_match_spec_witness :
    termCandidates [("java".data, [0])] [] "jav".data =
      termCandidatesExactPrefix [("java".data, [0])] [] "jav".data ∧
    (fuzzyMatch "javaa".data "java".data = true ↔
      max ("javaa".data).length ("java".data).length -
          min ("javaa".data).length ("java".data).length ≤ 2 ∧
        (levDistance "javaa".data "java".data : ℚ) /
          (max ("javaa".data).length ("java".data).length : ℚ) ≤ 2 / 5) :=
  ⟨fuzzy_match_spec.1 [("java".data, [0])] [] "jav".data (by decide),
    fuzzy_match_spec.2.1 "javaa".data "java".data (by decide)⟩

/-! ## Claims C5/C6: search filtering and guard clauses -/

theorem mem_insertDesc (x a : SearchResult) :
    ∀ l, a ∈ insertDesc x l ↔ a = x ∨ a ∈ l := by
  intro l
  induction l with
  | nil => simp [insertDesc]
  | cons y ys ih =>
    simp only [insertDesc]
    by_cases h : y.score < x.score
    · rw [if_pos h]
      simp only [List.mem_cons]
    · rw [if_neg h]
      simp only [List.mem_cons, ih]
      tauto

theorem mem_sortByScoreDesc (a : SearchResult) :
    ∀ l, a ∈ sortByScoreDesc l ↔ a ∈ l := by
  intro l
  induction l with
  | nil => simp [sortByScoreDesc]
  | cons y ys ih =>
    show a ∈ insertDesc y (sortByScoreDesc ys) ↔ _
    rw [mem_insertDesc]
    simp only [List.mem_cons, ih]

/-- Every record returned by `search` survived both filters. -/
theorem search_mem_filters (eng : EngineState) (query : Str) (opts : SearchOptions) :
    ∀ r ∈ search eng query opts,
      filterRejects (normFilter opts.version) r.doc.version = false ∧
      filterRejects (normFilter opts.category) r.doc.category = false := by
  intro r hr
  unfold search at hr
  split_ifs at hr with h1 h2 h3
  all_goals try exact absurd hr (List.not_mem_nil r)
  have hr2 := List.take_subset _ _ hr
  rw [mem_sortByScoreDesc] at hr2
  obtain ⟨di, _, hf⟩ := List.mem_filterMap.mp hr2
  cases hget : eng.index.get? di with
  | none =>
    rw [hget] at hf
    exact absurd hf (by simp)
  | some doc =>
    rw [hget] at hf
    dsimp only at hf
    split_ifs at hf with hv hc
    have hdoc : r.doc = doc := by
      cases hf
      rfl
    rw [hdoc]
    exact ⟨Bool.eq_false_iff.mpr hv, Bool.eq_false_iff.mpr hc⟩

/-- C5: with a version filter set (a non-falsy string, i.e. surviving the
`options.version || null` normalization), every returned record's version
equals the filter value; likewise for the category filter. -/
theorem search_filter_correct (eng : EngineState) (query : Str) (opts : SearchOptions) :
    (∀ v : Str, normFilter opts.version = some v →
      ∀ r ∈ search eng query opts, r.doc.version = v) ∧
    (∀ v : Str, normFilter opts.category = some v →
      ∀ r ∈ search eng query opts, r.doc.category = v) := by
  constructor
  · intro v hv r hr
    have h := (search_mem_filters eng query opts r hr).1
    rw [hv] at h
    unfold filterRejects at h
    simpa using h
  · intro v hv r hr
    have h := (search_mem_filters eng query opts r hr).2
    rw [hv] at h
    unfold filterRejects at h
    simpa using h

/-- A concrete loaded engine, record and options for the C5 witness. -/
def docW : Doc :=
  { title := "Installing Java".data, version := "62".data, category := "docs".data,
    searchText := "installing java".data }

def engW : EngineState :=
  { loaded := true, index := [docW], invertedIndex := buildInvertedIndex [docW] }

def optsW : SearchOptions := { version := some "62".data }

/-- Witness for C5: the filter-correctness conclusion at a concrete engine,
query and version filter. -/
theorem search_filter_correct_witness :
    ∀ r ∈ search engW "java".data optsW, r.doc.version = "62".data :=
  (search_filter_correct engW "java".data optsW).1 "62".data rfl

/-- C6: `search` is a total function (it never throws) and returns the empty
list whenever the engine is not ready, or the trimmed query is shorter than
2 characters, or the trimmed lowercased query tokenizes to no token of
length ≥ 2. -/
theorem search_guards_empty (eng : EngineState) (query : Str) (opts : SearchOptions)
    (h : eng.loaded = false ∨ (trimStr query).length < 2 ∨
      tokenize (lowerStr (trimStr query)) = []) :
    search eng query opts = [] := by
  unfold search
  split_ifs with h1 h2 h3
  all_goals try rfl
  exfalso
  rcases h with h | h | h
  · exact h1 h
  · apply h2
    unfold lowerStr
    rw [List.length_map]
    exact h
  · apply h3
    rw [h]
    rfl

/-- Witness for C6: a fresh (unloaded) engine returns the empty list. -/
theorem search_guards_empty_witness :
    search {} "java".data {} = [] :=
  search_guards_empty {} "java".data {} (Or.inl rfl)

/-! ## Claim C7: load idempotence and failure atomicity -/

/-- C7: once ready, `load` returns immediately with the state untouched and
no dependence on the fetch outcome (no refetch, no rebuild); when not ready
and the fetch fails or the body is invalid, `load` rejects, the engine stays
non-ready, and the record array and inverted index are unchanged (the whole
state is returned as-is — a failed load is never partially applied). -/
theorem load_spec (s : EngineState) (f : FetchResult) :
    (s.loaded = true → load s f = (s, Except.ok ())) ∧
    (s.loaded = false →
      (f = FetchResult.netFail ∨ f = FetchResult.badJson) →
      (∃ e, load s f = (s, Except.error e)) ∧ (load s f).1 = s ∧
        (load s f).1.loaded = false) := by
  constructor
  · intro h
    unfold load
    rw [if_pos h]
  · intro h hf
    unfold load
    rw [if_neg (by rw [h]; simp)]
    rcases hf with hf | hf
    · rw [hf]
      exact ⟨⟨_, rfl⟩, rfl, h⟩
    · rw [hf]
      exact ⟨⟨_, rfl⟩, rfl, h⟩

/-- Witness for C7: a ready engine is untouched by another `load` call even
when the fetch would fail; a fresh engine stays non-ready on a failed load. -/
theorem load_spec_witness :
    load { loaded := true } FetchResult.netFail =
      ({ loaded := true }, Except.ok ()) ∧
    (∃ e, load {} FetchResult.netFail = ({}, Except.error e)) ∧
    (load {} FetchResult.netFail).1.loaded = false :=
  ⟨(load_spec { loaded := true } FetchResult.netFail).1 rfl,
    ((load_spec {} FetchResult.netFail).2 rfl (Or.inl rfl)).1,
    ((load_spec {} FetchResult.netFail).2 rfl (Or.inl rfl)).2.2⟩

/-! ## AI assistant context assembly (`MagnoliaAI.buildContext`) -/

/-- The separator written before each chunk: `\n\n---\n\n`. -/
def hrSep : Str := "\n\n---\n\n".data

/-- An entry of the `relevantChunks` list produced by `findRelevantChunks`:
`{chunk, score}`. -/
structure ScoredChunk where
  chunk : LlmChunk
  score : ℚ

/-- The value returned by `buildContext`. -/
structure ContextResult where
  context : Str
  tokenEstimate : Nat
  sources : List (Str × Str)

/-- `config.maxContextTokens` default. -/
def defaultMaxContextTokens : Nat := 8000

/-- The `for` loop of `buildContext`: append `hrSep + content` for each chunk
until adding the next chunk's `tokenEstimate` would exceed the budget, then
`break` (dropping everything after the first overflowing chunk). -/
def buildCtxLoop (maxT : Nat) : List LlmChunk → Nat → (Str × Nat)
  | [], total => ([], total)
  | c :: cs, total =>
    if total + c.tokenEstimate > maxT then ([], total)
    else
      (hrSep ++ c.content ++ (buildCtxLoop maxT cs (total + c.tokenEstimate)).1,
        (buildCtxLoop maxT cs (total + c.tokenEstimate)).2)

/-- `buildContext(relevantChunks)`: trimmed concatenation, running token
total, and one `{title, url}` source entry per input chunk. -/
def buildContext (maxT : Nat) (relevantChunks : List ScoredChunk) : ContextResult :=
  { context := trimStr (buildCtxLoop maxT (relevantChunks.map ScoredChunk.chunk) 0).1
    tokenEstimate := (buildCtxLoop maxT (relevantChunks.map ScoredChunk.chunk) 0).2
    sources := (relevantChunks.map ScoredChunk.chunk).map fun c => (c.title, c.url) }

/-- The number of chunks the loop includes before breaking. -/
def includedCount (maxT : Nat) : List LlmChunk → Nat → Nat
  | [], _ => 0
  | c :: cs, total =>
    if total + c.tokenEstimate > maxT then 0
    else includedCount maxT cs (total + c.tokenEstimate) + 1

/-- Concatenation of the given contents, each preceded by the rule marker. -/
def hrJoin (contents : List Str) : Str := (contents.map (hrSep ++ ·)).join

theorem includedCount_le (maxT : Nat) :
    ∀ (cs : List LlmChunk) (total : Nat), includedCount maxT cs total ≤ cs.length := by
  intro cs
  induction cs with
  | nil => intro total; exact Nat.le_refl 0
  | cons c cs ih =>
    intro total
    by_cases h : total + c.tokenEstimate > maxT
    · simp [includedCount, h]
    · simp only [includedCount, if_neg h, List.length_cons]
      exact Nat.succ_le_succ (ih _)

theorem buildCtxLoop_spec (maxT : Nat) :
    ∀ (cs : List LlmChunk) (total : Nat),
      (buildCtxLoop maxT cs total).1 =
        hrJoin ((cs.take (includedCount maxT cs total)).map LlmChunk.content) ∧
      (buildCtxLoop maxT cs total).2 =
        total + ((cs.take (includedCount maxT cs total)).map LlmChunk.tokenEstimate).sum := by
  intro cs
  induction cs with
  | nil =>
    intro total
    exact ⟨rfl, by simp [buildCtxLoop, includedCount, hrJoin]⟩
  | cons c cs ih =>
    intro total
    by_cases h : total + c.tokenEstimate > maxT
    · constructor
      · simp [buildCtxLoop, includedCount, h, hrJoin]
      · simp [buildCtxLoop, includedCount, h]
    · obtain ⟨ih1, ih2⟩ := ih (total + c.tokenEstimate)
      constructor
      · simp only [buildCtxLoop, if_neg h, includedCount]
        rw [ih1]
        simp [hrJoin, List.append_assoc]
      · simp only [buildCtxLoop, if_neg h, includedCount]
        rw [ih2]
        simp only [List.take_succ_cons, List.map_cons, List.sum_cons]
        omega

theorem includedCount_bounds (maxT : Nat) :
    ∀ (cs : List LlmChunk) (total : Nat),
      (∀ j, j < includedCount maxT cs total →
        total + ((cs.take j).map LlmChunk.tokenEstimate).sum +
          (cs.getD j {}).tokenEstimate ≤ maxT) ∧
      (includedCount maxT cs total < cs.length →
        total + ((cs.take (includedCount maxT cs total)).map LlmChunk.tokenEstimate).sum +
          (cs.getD (includedCount maxT cs total) {}).tokenEstimate > maxT) := by
  intro cs
  induction cs with
  | nil =>
    intro total
    constructor
    · intro j hj
      simp [includedCount] at hj
    · intro h
      simp at h
  | cons c cs ih =>
    intro total
    by_cases h : total + c.tokenEstimate > maxT
    · constructor
      · intro j hj
        simp [includedCount, h] at hj
      · intro _
        simp only [includedCount, if_pos h, List.take_zero, List.map_nil, List.sum_nil,
          List.getD_cons_zero]
        omega
    · obtain ⟨ih1, ih2⟩ := ih (total + c.tokenEstimate)
      have hk : includedCount maxT (c :: cs) total =
          includedCount maxT cs (total + c.tokenEstimate) + 1 := by
        simp [includedCount, h]
      constructor
      · intro j hj
        rw [hk] at hj
        cases j with
        | zero =>
          simp only [List.take_zero, List.map_nil, List.sum_nil, List.getD_cons_zero]
          omega
        | succ j =>
          have hb := ih1 j (by omega)
          simp only [List.take_succ_cons, List.map_cons, List.sum_cons, List.getD_cons_succ]
          omega
      · intro hlt
        rw [hk] at hlt ⊢
        have hlt' : includedCount maxT cs (total + c.tokenEstimate) < cs.length := by
          simpa using hlt
        have hb := ih2 hlt'
        simp only [List.take_succ_cons, List.map_cons, List.sum_cons, List.getD_cons_succ]
        omega

/-- C9: `buildContext` includes a prefix of the score-ranked chunk list —
the first `k` chunks, where `k` is determined by the first chunk whose
`tokenEstimate` would push the running total over `maxContextTokens`
(default 8000).  The assembled context is the trimmed concatenation of the
included chunks' whole contents in score-rank order, each preceded by the
horizontal-rule marker (after trimming, the markers separate consecutive
chunks); no chunk is truncated mid-content, nothing after the first
overflowing chunk is considered, and no included chunk is ever evicted. -/
theorem buildContext_spec (rel : List ScoredChunk) (maxT : Nat) :
    ∃ k, k ≤ rel.length ∧
      (buildContext maxT rel).context =
        trimStr (hrJoin (((rel.map ScoredChunk.chunk).take k).map LlmChunk.content)) ∧
      (buildContext maxT rel).tokenEstimate =
        (((rel.map ScoredChunk.chunk).take k).map LlmChunk.tokenEstimate).sum ∧
      (∀ j, j < k →
        (((rel.map ScoredChunk.chunk).take j).map LlmChunk.tokenEstimate).sum +
          ((rel.map ScoredChunk.chunk).getD j {}).tokenEstimate ≤ maxT) ∧
      (k < rel.length →
        (((rel.map ScoredChunk.chunk).take k).map LlmChunk.tokenEstimate).sum +
          ((rel.map ScoredChunk.chunk).getD k {}).tokenEstimate > maxT) ∧
      defaultMaxContextTokens = 8000 := by
  obtain ⟨hctx, htok⟩ := buildCtxLoop_spec maxT (rel.map ScoredChunk.chunk) 0
  obtain ⟨hb1, hb2⟩ := includedCount_bounds maxT (rel.map ScoredChunk.chunk) 0
  refine ⟨includedCount maxT (rel.map ScoredChunk.chunk) 0, ?_, ?_, ?_, ?_, ?_, rfl⟩
  · have := includedCount_le maxT (rel.map ScoredChunk.chunk) 0
    rwa [List.length_map] at this
  · unfold buildContext
    rw [hctx]
  · unfold buildContext
    dsimp only
    rw [htok]
    omega
  · intro j hj
    have := hb1 j hj
    omega
  · intro hlt
    have hlt' : includedCount maxT (rel.map ScoredChunk.chunk) 0 <
        (rel.map ScoredChunk.chunk).length := by
      rwa [List.length_map]
    have := hb2 hlt'
    omega

/-- Chunks used to instantiate the context-assembly theorems. -/
def chA : LlmChunk :=
  { title := "A".data
    url := "ua".data
    content := "alpha".data
    tokenEstimate := 100 }

def chB : LlmChunk :=
  { title := "B".data
    url := "ub".data
    content := "beta".data
    tokenEstimate := 100 }

/-- Witness for C9: the statement instantiated at a concrete two-chunk list
and budget (the second chunk overflows a budget of 150). -/
theorem buildContext_spec_witness :
    ∃ k, k ≤ ([⟨chA, 1⟩, ⟨chB, 0⟩] : List ScoredChunk).length ∧
      (buildContext 150 [⟨chA, 1⟩, ⟨chB, 0⟩]).context =
        trimStr (hrJoin
          ((([⟨chA, 1⟩, ⟨chB, 0⟩] : List ScoredChunk).map ScoredChunk.chunk).take k
            |>.map LlmChunk.content)) ∧
      (buildContext 150 [⟨chA, 1⟩, ⟨chB, 0⟩]).tokenEstimate =
        ((([⟨chA, 1⟩, ⟨chB, 0⟩] : List ScoredChunk).map ScoredChunk.chunk).take k
          |>.map LlmChunk.tokenEstimate).sum ∧
      (∀ j, j < k →
        ((([⟨chA, 1⟩, ⟨chB, 0⟩] : List ScoredChunk).map ScoredChunk.chunk).take j
          |>.map LlmChunk.tokenEstimate).sum +
          ((([⟨chA, 1⟩, ⟨chB, 0⟩] : List ScoredChunk).map ScoredChunk.chunk).getD j
            {}).tokenEstimate ≤ 150) ∧
      (k < ([⟨chA, 1⟩, ⟨chB, 0⟩] : List ScoredChunk).length →
        ((([⟨chA, 1⟩, ⟨chB, 0⟩] : List ScoredChunk).map ScoredChunk.chunk).take k
          |>.map LlmChunk.tokenEstimate).sum +
          ((([⟨chA, 1⟩, ⟨chB, 0⟩] : List ScoredChunk).map ScoredChunk.chunk).getD k
            {}).tokenEstimate > 150) ∧
      defaultMaxContextTokens = 8000 :=
  buildContext_spec [⟨chA, 1⟩, ⟨chB, 0⟩] 150

/-- C10: the `sources` array of `buildContext` lists one `{title, url}` pair
for EVERY chunk of the input list, including chunks whose content was left
out of the context because the token budget was reached — demonstrated
concretely: with a budget of 150 the second chunk's content is absent from
the context, yet both chunks are cited. -/
theorem buildContext_sources_complete :
    (∀ (rel : List ScoredChunk) (maxT : Nat),
      (buildContext maxT rel).sources = rel.map fun r => (r.chunk.title, r.chunk.url)) ∧
    (buildContext 150 [⟨chA, 1⟩, ⟨chB, 0⟩]).sources =
      [("A".data, "ua".data), ("B".data, "ub".data)] ∧
    isSubstring chB.content (buildContext 150 [⟨chA, 1⟩, ⟨chB, 0⟩]).context = false := by
  refine ⟨?_, by decide, by decide⟩
  intro rel maxT
  unfold buildContext
  rw [List.map_map]
  rfl

/-! ## Claim C4: the full-query phrase bonus and score monotonicity -/

theorem termScore_title_congr (title1 title2 heading content breadcrumb term : Str)
    (h1 : isSubstring term title1 = isSubstring term title2)
    (h2 : isPrefixB term title1 = isPrefixB term title2) :
    termScore title1 heading content breadcrumb term =
      termScore title2 heading content breadcrumb term := by
  unfold termScore
  rw [h1, h2]

theorem foldl_termScore_congr (title1 title2 heading content breadcrumb : Str) :
    ∀ l : List Str,
      (∀ t ∈ l, termScore title1 heading content breadcrumb t =
        termScore title2 heading content breadcrumb t) →
      ∀ a : ℚ,
        l.foldl (fun s term => s + termScore title1 heading content breadcrumb term) a =
          l.foldl (fun s term => s + termScore title2 heading content breadcrumb term) a := by
  intro l
  induction l with
  | nil => intro _ a; rfl
  | cons t ts ih =>
    intro h a
    simp only [List.foldl_cons]
    rw [h t (List.mem_cons_self t ts)]
    exact ih (fun x hx => h x (List.mem_cons_of_mem t hx)) _

theorem foldl_termScore_shift (title heading content breadcrumb : Str) :
    ∀ (l : List Str) (a b : ℚ),
      l.foldl (fun s term => s + termScore title heading content breadcrumb term) (a + b) =
        l.foldl (fun s term => s + termScore title heading content breadcrumb term) a + b := by
  intro l
  induction l with
  | nil => intro a b; rfl
  | cons t ts ih =>
    intro a b
    simp only [List.foldl_cons]
    rw [show a + b + termScore title heading content breadcrumb t =
      a + termScore title heading content breadcrumb t + b by ring]
    exact ih _ _

/-- Adding the full-query title phrase bonus raises the additive score by
exactly 100 when per-term title contributions are unchanged. -/
theorem scoreBase_phrase_shift (t1 t2 heading content breadcrumb : Str)
    (queryTerms : List Str) (fullQuery : Str)
    (h1 : isSubstring fullQuery t1 = false)
    (h2 : isSubstring fullQuery t2 = true)
    (hterm : ∀ term ∈ queryTerms,
      isSubstring term t1 = isSubstring term t2 ∧
        isPrefixB term t1 = isPrefixB term t2) :
    scoreBase t2 heading content breadcrumb queryTerms fullQuery =
      scoreBase t1 heading content breadcrumb queryTerms fullQuery + 100 := by
  unfold scoreBase
  rw [h1, h2]
  simp only [if_true, Bool.false_eq_true, if_false]
  rw [foldl_termScore_congr t2 t1 heading content breadcrumb queryTerms
    (fun t ht => termScore_title_congr t2 t1 heading content breadcrumb t
      ((hterm t ht).1).symm ((hterm t ht).2).symm)]
  rw [show ∀ B : ℚ, (100 : ℚ) + B = 0 + B + 100 from fun B => by ring]
  exact foldl_termScore_shift t1 heading content breadcrumb queryTerms _ _

/-- C4 as amended: for every document, query-token list and full query
string, adding an exact full-query-string substring match to the title
strictly increases the score versus an otherwise-identical document whose
title lacks it, provided the per-token title contributions AND the
short-title boost condition (title length < 30) are unchanged between the
two titles.  (Without the title-length proviso the claim is false — see the
counterexample.) -/
theorem scoreDocument_phrase_bonus (d : Doc) (t1 t2 : Str) (queryTerms : List Str)
    (fullQuery : Str)
    (h1 : isSubstring fullQuery (lowerStr t1) = false)
    (h2 : isSubstring fullQuery (lowerStr t2) = true)
    (hterm : ∀ term ∈ queryTerms,
      isSubstring term (lowerStr t1) = isSubstring term (lowerStr t2) ∧
        isPrefixB term (lowerStr t1) = isPrefixB term (lowerStr t2))
    (hlen : t1.length < 30 ↔ t2.length < 30) :
    scoreDocument { d with title := t1 } queryTerms fullQuery <
      scoreDocument { d with title := t2 } queryTerms fullQuery := by
  unfold scoreDocument
  dsimp only
  rw [scoreBase_phrase_shift (lowerStr t1) (lowerStr t2) (lowerStr d.heading)
    (lowerStr (if d.fullContent.isEmpty then d.content else d.fullContent))
    (lowerStr (joinSep [' '] d.breadcrumb)) queryTerms fullQuery h1 h2 hterm]
  set B := scoreBase (lowerStr t1) (lowerStr d.heading)
    (lowerStr (if d.fullContent.isEmpty then d.content else d.fullContent))
    (lowerStr (joinSep [' '] d.breadcrumb)) queryTerms fullQuery with hB
  unfold applyBoosts
  dsimp only
  by_cases hh : d.headingLevel ≠ 0 ∧ d.headingLevel ≤ 2
  · rw [if_pos hh, if_pos hh]
    by_cases hl : t1.length < 30
    · rw [if_pos hl, if_pos (hlen.mp hl)]
      linarith
    · rw [if_neg hl, if_neg (fun h => hl (hlen.mpr h))]
      linarith
  · rw [if_neg hh, if_neg hh]
    by_cases hl : t1.length < 30
    · rw [if_pos hl, if_pos (hlen.mp hl)]
      linarith
    · rw [if_neg hl, if_neg (fun h => hl (hlen.mpr h))]
      linarith

/-- Witness for the amended C4: a phrase match added to a short title (both
titles short, no query tokens) strictly raises the score. -/
theorem scoreDocument_phrase_bonus_witness :
    scoreDocument { ({} : Doc) with title := "aa".data } [] "zz".data <
      scoreDocument { ({} : Doc) with title := "zz".data } [] "zz".data :=
  scoreDocument_phrase_bonus {} "aa".data "zz".data [] "zz".data (by decide) (by decide)
    (fun t ht => absurd ht (List.not_mem_nil t)) Iff.rfl

/-- The 30-character title: starts with `aa` (same per-token contributions as
the short title) and ends with the full query `zz`, but loses the short-title
boost. -/
def tLongC4 : Str := "aa".data ++ List.replicate 26 'x' ++ "zz".data

def docC4short : Doc :=
  { title := "aa".data
    heading := "aa".data
    content := "aa".data
    breadcrumb := ["aa".data]
    headingLevel := 3 }

def docC4long : Doc :=
  { title := tLongC4
    heading := "aa".data
    content := "aa".data
    breadcrumb := ["aa".data]
    headingLevel := 3 }

def qTermsC4 : List Str := List.replicate 14 "aa".data

/-- Counterexample to C4 as stated: the two documents are identical except
for the title; the long title CONTAINS the full query `zz` while the short
one does not, and every per-token contribution is identical (both titles
contain and start with the only query token `aa`).  Yet the document WITH
the phrase match scores 639, strictly BELOW the 646.8 of the one without it:
crossing the 30-character threshold forfeits the ×1.2 short-title boost,
which outweighs the +100 phrase bonus once the additive score exceeds 500. -/
theorem scoreDocument_phrase_counterexample :
    isSubstring "zz".data (lowerStr docC4short.title) = false ∧
    isSubstring "zz".data (lowerStr docC4long.title) = true ∧
    isSubstring "aa".data (lowerStr docC4short.title) =
      isSubstring "aa".data (lowerStr docC4long.title) ∧
    isPrefixB "aa".data (lowerStr docC4short.title) =
      isPrefixB "aa".data (lowerStr docC4long.title) ∧
    docC4short.heading = docC4long.heading ∧
    docC4short.content = docC4long.content ∧
    docC4short.fullContent = docC4long.fullContent ∧
    docC4short.breadcrumb = docC4long.breadcrumb ∧
    docC4short.headingLevel = docC4long.headingLevel ∧
    scoreDocument docC4long qTermsC4 "zz".data <
      scoreDocument docC4short qTermsC4 "zz".data := by
  refine ⟨by decide, by decide, by decide, by decide, by decide, by decide, by decide,
    by decide, by decide, ?_⟩
  have hts1 : termScore "aa".data "aa".data "aa".data "aa".data "aa".data = 77 / 2 := by
    unfold termScore
    rw [if_pos (show isSubstring "aa".data "aa".data = true from by decide),
      if_pos (show isPrefixB "aa".data "aa".data = true from by decide),
      if_pos (show ¬("aa".data.isEmpty = true) ∧ isSubstring "aa".data "aa".data = true
        from by decide),
      if_pos (show isSubstring "aa".data "aa".data = true from by decide),
      if_pos (show isSubstring "aa".data "aa".data = true from by decide),
      show countOccur "aa".data "aa".data = 1 from by decide]
    norm_num [min_def]
  have hts2 : termScore tLongC4 "aa".data "aa".data "aa".data "aa".data = 77 / 2 := by
    unfold termScore
    rw [if_pos (show isSubstring "aa".data tLongC4 = true from by decide),
      if_pos (show isPrefixB "aa".data tLongC4 = true from by decide),
      if_pos (show ¬("aa".data.isEmpty = true) ∧ isSubstring "aa".data "aa".data = true
        from by decide),
      if_pos (show isSubstring "aa".data "aa".data = true from by decide),
      if_pos (show isSubstring "aa".data "aa".data = true from by decide),
      show countOccur "aa".data "aa".data = 1 from by decide]
    norm_num [min_def]
  have hbase1 : scoreBase "aa".data "aa".data "aa".data "aa".data qTermsC4 "zz".data =
      539 := by
    unfold scoreBase
    rw [if_neg (show ¬(isSubstring "zz".data "aa".data = true) from by decide),
      if_neg (show ¬(isSubstring "zz".data "aa".data = true) from by decide)]
    simp only [qTermsC4, List.replicate_succ, List.replicate_zero, List.foldl_cons,
      List.foldl_nil, hts1]
    norm_num
  have hbase2 : scoreBase tLongC4 "aa".data "aa".data "aa".data qTermsC4 "zz".data =
      639 := by
    unfold scoreBase
    rw [if_pos (show isSubstring "zz".data tLongC4 = true from by decide),
      if_neg (show ¬(isSubstring "zz".data "aa".data = true) from by decide)]
    simp only [qTermsC4, List.replicate_succ, List.replicate_zero, List.foldl_cons,
      List.foldl_nil, hts2]
    norm_num
  have e1 : lowerStr docC4short.title = "aa".data := by decide
  have e2 : lowerStr docC4short.heading = "aa".data := by decide
  have e3 : lowerStr (if docC4short.fullContent.isEmpty then docC4short.content
      else docC4short.fullContent) = "aa".data := by decide
  have e4 : lowerStr (joinSep [' '] docC4short.breadcrumb) = "aa".data := by decide
  have f1 : lowerStr docC4long.title = tLongC4 := by decide
  have f2 : lowerStr docC4long.heading = "aa".data := by decide
  have f3 : lowerStr (if docC4long.fullContent.isEmpty then docC4long.content
      else docC4long.fullContent) = "aa".data := by decide
  have f4 : lowerStr (joinSep [' '] docC4long.breadcrumb) = "aa".data := by decide
  unfold scoreDocument
  rw [e1, e2, e3, e4, f1, f2, f3, f4, hbase1, hbase2]
  unfold applyBoosts
  rw [if_neg (show ¬(docC4long.headingLevel ≠ 0 ∧ docC4long.headingLevel ≤ 2)
      from by decide),
    if_neg (show ¬(docC4short.headingLevel ≠ 0 ∧ docC4short.headingLevel ≤ 2)
      from by decide),
    if_neg (show ¬(docC4long.title.length < 30) from by decide),
    if_pos (show docC4short.title.length < 30 from by decide)]
  norm_num
